import Mathlib

/-
  Verification development for the ACP session manager (AcpService):
  a JSON-RPC-over-stdio session manager that spawns an agent subprocess,
  performs an initialize handshake, frames newline-delimited JSON from the
  subprocess's stdout, correlates responses to pending calls, and fans out
  notifications.  The definitions below are a shallow embedding of the
  service's state and operations; machine-level JavaScript semantics
  (field sniffing with the `in` operator, truthiness, parseInt, string
  keyed Maps, promise first-settle-wins) are modelled explicitly.
-/

namespace Acp

/-- Model of a parsed JSON value (the output of JSON.parse on one line).
Numbers are modelled as integers, which covers every value the service
inspects (request ids and protocol versions). -/
inductive Json where
  | null : Json
  | bool (b : Bool) : Json
  | num (n : Int) : Json
  | str (s : String) : Json
  | arr (elems : List Json) : Json
  | obj (fields : List (String × Json)) : Json

/-- Field lookup, modelling JavaScript property access `v.f` on a parsed
JSON value: `none` means the property is absent (JS `undefined`).  Only
objects carry properties in the shapes the service reads. -/
def Json.getField : Json → String → Option Json
  | .obj fields, k =>
    match fields.find? (fun e => e.1 == k) with
    | some e => some e.2
    | none => none
  | _, _ => none

/-- Model of the JavaScript `'f' in v` test used by handleMessage for
field sniffing.  Defined for the array/object values on which `in` is
legal; the service only ever reaches it with such values (primitives
throw upstream, see `throwsOnFieldTest`). -/
def Json.hasField (v : Json) (k : String) : Bool :=
  (v.getField k).isSome

/-- JavaScript `in` throws a TypeError when its right operand is a
primitive (null, boolean, number, string); handleMessage's field tests
therefore throw for such parsed values and the enclosing try/catch in the
stdout handler reports them as invalid JSON. -/
def Json.throwsOnFieldTest : Json → Bool
  | .null => true
  | .bool _ => true
  | .num _ => true
  | .str _ => true
  | .arr _ => false
  | .obj _ => false

/-- JavaScript truthiness of a parsed JSON value (used by
`if (response.error)` and by the protocol-version guard). -/
def Json.truthy : Json → Bool
  | .null => false
  | .bool b => b
  | .num n => n != 0
  | .str s => s != ""
  | .arr _ => true
  | .obj _ => true

mutual

/-- JavaScript ToString of a parsed JSON value, as used by template
interpolation when building the pending-request key from `response.id`.
Arrays stringify their elements joined by commas; objects stringify to
the fixed tag. -/
def Json.jsToString : Json → String
  | .null => "null"
  | .bool b => cond b "true" "false"
  | .num n => toString n
  | .str s => s
  | .arr elems => Json.jsToStringList elems
  | .obj _ => "[object Object]"

/-- Comma-joined stringification of array elements. -/
def Json.jsToStringList : List Json → String
  | [] => ""
  | [v] => Json.jsToString v
  | v :: rest => Json.jsToString v ++ "," ++ Json.jsToStringList rest

end

mutual

/-- Model of JSON.stringify on the values the service writes to the
subprocess's stdin (escaping of special characters inside strings is not
modelled; the service only writes plain method names and parameters). -/
def Json.stringify : Json → String
  | .null => "null"
  | .bool b => cond b "true" "false"
  | .num n => toString n
  | .str s => "\"" ++ s ++ "\""
  | .arr elems => "[" ++ Json.stringifyList elems ++ "]"
  | .obj fields => "\x7b" ++ Json.stringifyFields fields ++ "\x7d"

/-- Stringify array elements, comma separated. -/
def Json.stringifyList : List Json → String
  | [] => ""
  | [v] => Json.stringify v
  | v :: rest => Json.stringify v ++ "," ++ Json.stringifyList rest

/-- Stringify object fields, comma separated. -/
def Json.stringifyFields : List (String × Json) → String
  | [] => ""
  | [e] => "\"" ++ e.1 ++ "\":" ++ Json.stringify e.2
  | e :: rest => "\"" ++ e.1 ++ "\":" ++ Json.stringify e.2 ++ "," ++ Json.stringifyFields rest

end

/-- Whitespace recognized by String.prototype.trim and by parseInt
(the ASCII whitespace characters; the service's agents emit ASCII). -/
def isWsChar (c : Char) : Bool :=
  c = ' ' || c = '\t' || c = '\n' || c = '\r' || c = '\x0b' || c = '\x0c'

/-- Decimal digit test. -/
def isDigitChar (c : Char) : Bool := '0' ≤ c && c ≤ '9'

/-- Hexadecimal digit test. -/
def isHexChar (c : Char) : Bool :=
  isDigitChar c || ('a' ≤ c && c ≤ 'f') || ('A' ≤ c && c ≤ 'F')

/-- Numeric value of one hexadecimal digit. -/
def hexVal (c : Char) : Nat :=
  if isDigitChar c then c.toNat - '0'.toNat
  else if 'a' ≤ c && c ≤ 'f' then c.toNat - 'a'.toNat + 10
  else c.toNat - 'A'.toNat + 10

/-- Accumulate a digit list into a natural number, given a base. -/
def digitsToNat (base : Nat) (f : Char → Nat) (l : List Char) : Nat :=
  l.foldl (fun acc c => acc * base + f c) 0

/-- Model of JavaScript `parseInt(s)` with no radix argument: skip
leading whitespace, read an optional sign, then either a 0x/0X
hexadecimal literal or leading decimal digits; `none` models NaN
(no digits found).  Comparisons `NaN < 1` are false in JavaScript,
which callers of this model reproduce by matching on `none`. -/
def jsParseInt (s : String) : Option Int :=
  let l := s.data.dropWhile isWsChar
  let signed : Int × List Char :=
    match l with
    | '-' :: rest => (-1, rest)
    | '+' :: rest => (1, rest)
    | rest => (1, rest)
  let body := signed.2
  match body with
  | '0' :: 'x' :: rest =>
    let ds := rest.takeWhile isHexChar
    if ds.isEmpty then none else some (signed.1 * (digitsToNat 16 hexVal ds : Nat))
  | '0' :: 'X' :: rest =>
    let ds := rest.takeWhile isHexChar
    if ds.isEmpty then none else some (signed.1 * (digitsToNat 16 hexVal ds : Nat))
  | _ =>
    let ds := body.takeWhile isDigitChar
    if ds.isEmpty then none
    else some (signed.1 * (digitsToNat 10 (fun c => c.toNat - '0'.toNat) ds : Nat))

/-- JavaScript String.prototype.startsWith, used by dispose to select the
pending calls belonging to a session (prefix test on the key string). -/
def strStartsWith (s p : String) : Bool := p.data.isPrefixOf s.data

/-- Lookup in a string-keyed JavaScript Map, modelled as an insertion
ordered association list. -/
def mapGet {α : Type} (m : List (String × α)) (k : String) : Option α :=
  match m.find? (fun e => e.1 == k) with
  | some e => some e.2
  | none => none

/-- Map.delete: remove the entry with the given key. -/
def mapDelete {α : Type} (m : List (String × α)) (k : String) : List (String × α) :=
  m.filter (fun e => !(e.1 == k))

/-- Map.set: replace the value under an existing key, else append. -/
def mapSet {α : Type} (m : List (String × α)) (k : String) (v : α) : List (String × α) :=
  if m.any (fun e => e.1 == k) then m.map (fun e => if e.1 == k then (k, v) else e)
  else m ++ [(k, v)]

/-- Session status values of AcpSession.status. -/
inductive Status where
  | initializing : Status
  | ready : Status
  | error : Status
  | exited : Status
deriving DecidableEq

/-- One AcpSession registry entry.  `killed` mirrors process.killed;
`stdinOpen` records that the subprocess's stdin pipe exists (always true
for sessions created by newSession, which spawns with piped stdio). -/
structure Session where
  id : String
  providerId : String
  workspaceId : String
  cwd : String
  killed : Bool
  stdinOpen : Bool
  status : Status
  protocolVersion : Option Json
  capabilities : Option Json

/-- The data captured by a pendingRequests map entry (beyond its
resolve/reject continuations, which the promises ledger models): the
method and timeout captured by the setTimeout closure of rpcCall. -/
structure PendingEntry where
  method : String
  timeoutMs : Nat

/-- The failure reasons with which a pending call's promise can be
rejected (the `new Error(...)` values of the source, by provenance). -/
inductive RejectReason where
  | responseError (message : Option Json) : RejectReason
  | timeout (method : String) (timeoutMs : Nat) : RejectReason
  | sessionDisposed : RejectReason
  | writeFailed : RejectReason
  | sessionNotAvailable : RejectReason

/-- The Error.message string carried by each reject reason, mirroring
the literal messages of the source (`writeFailed` carries an OS-provided
message, modelled by a fixed tag). -/
def reasonMessage : RejectReason → String
  | .responseError m =>
    match m with
    | some v => v.jsToString
    | none => "undefined"
  | .timeout method timeoutMs =>
    "Request " ++ method ++ " timed out after " ++ toString timeoutMs ++ "ms"
  | .sessionDisposed => "Session disposed"
  | .writeFailed => "write EPIPE"
  | .sessionNotAvailable => "Session not available"

/-- Settlement state of one call's promise.  JavaScript promises settle
at most once: the first resolve/reject wins and later ones are no-ops,
which `settleOnce` models. -/
inductive PromiseState where
  | pending : PromiseState
  | resolved (v : Option Json) : PromiseState
  | rejected (r : RejectReason) : PromiseState

/-- First-settle-wins: settling an already settled promise is a no-op. -/
def settleOnce (p : PromiseState) (outcome : PromiseState) : PromiseState :=
  match p with
  | .pending => outcome
  | s => s

/-- Settle the promise registered under a key in the promises ledger
(first-settle-wins; entries under other keys are untouched). -/
def settlePromise (ps : List (String × PromiseState)) (k : String) (outcome : PromiseState) :
    List (String × PromiseState) :=
  ps.map (fun e => if e.1 == k then (e.1, settleOnce e.2 outcome) else e)

/-- The mutable state of the AcpService event-emitter singleton:
the session registry, the pendingRequests map keyed by
`sessionId:requestId`, the monotone request id counter, the per-session
log writers, plus two observation ledgers: the settlement state of every
promise handed out by rpcCall (keyed like pendingRequests) and the lines
written to each session's stdin. -/
structure AcpState where
  sessions : List (String × Session)
  pendingRequests : List (String × PendingEntry)
  requestIdCounter : Nat
  promises : List (String × PromiseState)
  logWriters : List (String × Bool)
  stdinWrites : List (String × String)

/-- Events the service emits (EventEmitter `notification` and `error`
channels) together with the warn log for dropped oversized lines. -/
inductive AcpEvent where
  | notificationEvt (sessionId : String) (etype : String) (payload : Json) : AcpEvent
  | errorEvt (sessionId : String) (error : String) : AcpEvent
  | warnOversized (sessionId : String) (len : Nat) : AcpEvent

/-- The observable cleanup steps dispose performs, used to state that a
second dispose releases nothing twice. -/
inductive DisposeAction where
  | killProc : DisposeAction
  | rejectPending (key : String) : DisposeAction
  | closeWriter : DisposeAction
  | removeSession : DisposeAction
deriving DecidableEq

/-- Session id construction of newSession:
providerId-workspaceId-timestamp. -/
def mkSessionId (providerId workspaceId : String) (ts : Nat) : String :=
  providerId ++ "-" ++ workspaceId ++ "-" ++ toString ts

/-- Pending-request key construction of rpcCall: sessionId:requestId. -/
def reqKey (sessionId : String) (id : Nat) : String :=
  sessionId ++ ":" ++ toString id

/-- The key string built by handleMessage from `response.id` via template
interpolation; an absent id interpolates as "undefined". -/
def respIdString : Option Json → String
  | none => "undefined"
  | some v => v.jsToString

/-- Status of a session in the registry, if present. -/
def sessionStatus (st : AcpState) (sessionId : String) : Option Status :=
  (mapGet st.sessions sessionId).map (fun s => s.status)

/-- Settlement state of the promise registered under a key. -/
def promiseOf (st : AcpState) (k : String) : Option PromiseState :=
  mapGet st.promises k

/-- Apply a function to the registry entry of one session (models a
mutation of the captured session object, visible through the registry
only while the session is still registered). -/
def updateSession (st : AcpState) (sessionId : String) (f : Session → Session) : AcpState :=
  { st with sessions := st.sessions.map (fun e => if e.1 == sessionId then (e.1, f e.2) else e) }

/-- handleMessage: classify one parsed inbound JSON value and act on it.
Mirrors the source line by line, including the operator precedence of its
Response test: `'id' in msg && 'result' in msg || 'error' in msg` parses
as `('id' in msg && 'result' in msg) || ('error' in msg)`.  In the
Response branch the matching pending call (if any) is removed and its
promise settled — rejected with the error's message when `response.error`
is truthy, resolved with `response.result` otherwise.  In the
Notification branch the message is emitted to subscribers.  Any other
shape falls through with no state change and no event. -/
def handleMessage (st : AcpState) (sessionId : String) (msg : Json) :
    AcpState × List AcpEvent :=
  if (msg.hasField "id" && msg.hasField "result") || msg.hasField "error" then
    let k := sessionId ++ ":" ++ respIdString (msg.getField "id")
    match mapGet st.pendingRequests k with
    | some _ =>
      let st1 := { st with pendingRequests := mapDelete st.pendingRequests k }
      let outcome : PromiseState :=
        match msg.getField "error" with
        | some err =>
          if err.truthy then .rejected (.responseError (err.getField "message"))
          else .resolved (msg.getField "result")
        | none => .resolved (msg.getField "result")
      ({ st1 with promises := settlePromise st1.promises k outcome }, [])
    | none => (st, [])
  else if msg.hasField "method" && !(msg.hasField "id") then
    (st, [.notificationEvt sessionId "notification" msg])
  else
    (st, [])

/-- The Response test of handleMessage, with the source's operator
precedence. -/
def isResponseShape (msg : Json) : Bool :=
  (msg.hasField "id" && msg.hasField "result") || msg.hasField "error"

/-- The timeout callback of rpcCall firing for the call registered under
key `k`: it deletes the key from pendingRequests and rejects the promise
with the timeout error built from the captured method and timeout. -/
def timerFire (st : AcpState) (k : String) (method : String) (timeoutMs : Nat) : AcpState :=
  { st with
    pendingRequests := mapDelete st.pendingRequests k,
    promises := settlePromise st.promises k (.rejected (.timeout method timeoutMs)) }

/-- dispose(sessionId): if the session is not registered, return at once.
Otherwise kill the process if not yet killed, reject and remove every
pendingRequests entry whose key starts with the session id, close and
remove the log writer if present, and remove the session from the
registry.  The returned action list records each cleanup step
performed. -/
def dispose (st : AcpState) (sessionId : String) : AcpState × List DisposeAction :=
  match mapGet st.sessions sessionId with
  | none => (st, [])
  | some s =>
    let killActs := if s.killed then [] else [DisposeAction.killProc]
    let toReject := st.pendingRequests.filter (fun e => strStartsWith e.1 sessionId)
    let kept := st.pendingRequests.filter (fun e => !(strStartsWith e.1 sessionId))
    let promises1 := toReject.foldl
      (fun ps e => settlePromise ps e.1 (.rejected .sessionDisposed)) st.promises
    let writerActs :=
      match mapGet st.logWriters sessionId with
      | some _ => [DisposeAction.closeWriter]
      | none => ([] : List DisposeAction)
    ({ st with
        sessions := mapDelete st.sessions sessionId,
        pendingRequests := kept,
        promises := promises1,
        logWriters := mapDelete st.logWriters sessionId },
     killActs ++ toReject.map (fun e => DisposeAction.rejectPending e.1)
       ++ writerActs ++ [DisposeAction.removeSession])

/-- State reached by dispose (discarding the action record). -/
def disposeSt (st : AcpState) (sessionId : String) : AcpState :=
  (dispose st sessionId).1

/-- The subprocess exit handler: mark the session exited (visible while
still registered), emit the exit notification with the exit code, then
dispose the session. -/
def onExit (st : AcpState) (sessionId : String) (code : Option Int) :
    AcpState × List AcpEvent × List DisposeAction :=
  let st1 := updateSession st sessionId (fun s => { s with status := .exited })
  let codeJson := match code with | some n => Json.num n | none => Json.null
  let evs := [AcpEvent.notificationEvt sessionId "exit" (Json.obj [("code", codeJson)])]
  let d := dispose st1 sessionId
  (d.1, evs, d.2)

/-- rpcCall(sessionId, method, params, timeoutMs): reject at once when
the session is absent or has no stdin; otherwise allocate the next
request id, register the pending call and its (pending) promise under
`sessionId:id`, and write the framed request line.  `writeOk` models the
outcome of the asynchronous stdin write: on failure its callback clears
the timer, removes the pending entry and rejects the promise.  Returns
the key of the promise handed to the caller. -/
def rpcCall (st : AcpState) (sessionId method : String) (params : Json)
    (timeoutMs : Nat) (writeOk : Bool) : AcpState × Except RejectReason String :=
  match mapGet st.sessions sessionId with
  | none => (st, .error .sessionNotAvailable)
  | some s =>
    if !s.stdinOpen then (st, .error .sessionNotAvailable)
    else
      let id := st.requestIdCounter + 1
      let k := reqKey sessionId id
      let reqJson := Json.obj
        [("jsonrpc", Json.str "2.0"), ("id", Json.num (Int.ofNat id)),
         ("method", Json.str method), ("params", params)]
      let st1 := { st with
        requestIdCounter := id,
        pendingRequests := mapSet st.pendingRequests k ⟨method, timeoutMs⟩,
        promises := mapSet st.promises k PromiseState.pending }
      if writeOk then
        ({ st1 with stdinWrites :=
            st1.stdinWrites ++ [(sessionId, Json.stringify reqJson ++ "\n")] },
         .ok k)
      else
        ({ st1 with
            pendingRequests := mapDelete st1.pendingRequests k,
            promises := settlePromise st1.promises k (.rejected .writeFailed) },
         .ok k)

/-- The JSON value of a framed notification line. -/
def notifJson (method : String) (params : Json) : Json :=
  Json.obj [("jsonrpc", Json.str "2.0"), ("method", Json.str method), ("params", params)]

/-- rpcNotify(sessionId, method, params): reject when the session is
absent or has no stdin; otherwise write the framed notification line and
resolve as soon as the write is flushed (no pending call is registered).
`writeOk` models the stdin write outcome. -/
def rpcNotify (st : AcpState) (sessionId method : String) (params : Json)
    (writeOk : Bool) : AcpState × Except RejectReason Unit :=
  match mapGet st.sessions sessionId with
  | none => (st, .error .sessionNotAvailable)
  | some s =>
    if !s.stdinOpen then (st, .error .sessionNotAvailable)
    else
      if writeOk then
        ({ st with stdinWrites :=
            st.stdinWrites ++ [(sessionId, Json.stringify (notifJson method params) ++ "\n")] },
         .ok ())
      else (st, .error .writeFailed)

/-- Result record of the caller-facing operations
({success, error?} and friends). -/
structure OpResult where
  success : Bool
  error : Option String
deriving DecidableEq

/-- cancel(sessionId): fail with 'Session not found' when the session id
is absent from the registry (without inspecting the status); otherwise
send the fire-and-forget cancel notification, returning success once the
write is flushed and the caught error message when the write path
rejects. -/
def cancel (st : AcpState) (sessionId : String) (writeOk : Bool) : AcpState × OpResult :=
  match mapGet st.sessions sessionId with
  | none => (st, { success := false, error := some "Session not found" })
  | some _ =>
    match rpcNotify st sessionId "cancel" (Json.obj []) writeOk with
    | (st1, .ok _) => (st1, { success := true, error := none })
    | (st1, .error e) => (st1, { success := false, error := some (reasonMessage e) })

/-- Result record of newSession. -/
structure NewSessionResult where
  success : Bool
  sessionId : Option String
  error : Option String

/-- The protocol-version guard of newSession:
`result.protocolVersion && parseInt(result.protocolVersion) < 1`.
True exactly when the field is present, truthy, and parseInt yields a
value below 1 (parseInt returning NaN compares false). -/
def versionRejected (result : Json) : Bool :=
  match result.getField "protocolVersion" with
  | none => false
  | some v =>
    v.truthy &&
      (match jsParseInt v.jsToString with
       | some n => decide (n < 1)
       | none => false)

/-- The tail of newSession after the initialize call settles.  The
argument is the settled outcome of the initialize promise: a reject
reason, or the resolved value (`none` models resolve(undefined), when the
response carried no result field).  On a resolved object, the protocol
version guard either disposes the session and reports the unsupported
version error, or marks the session ready and stores the negotiated
version and capabilities.  Accessing `.protocolVersion` on a resolved
null/undefined throws a TypeError, which the surrounding catch turns into
the initialize failure path (dispose, then the error result). -/
def newSessionFinish (st : AcpState) (sessionId : String)
    (outcome : Except RejectReason (Option Json)) : AcpState × NewSessionResult :=
  match outcome with
  | .error e =>
    ((dispose st sessionId).1,
     { success := false, sessionId := none,
       error := some ("Initialize timeout or error: " ++ reasonMessage e) })
  | .ok none =>
    ((dispose st sessionId).1,
     { success := false, sessionId := none,
       error := some "Initialize timeout or error: Cannot read properties of undefined" })
  | .ok (some Json.null) =>
    ((dispose st sessionId).1,
     { success := false, sessionId := none,
       error := some "Initialize timeout or error: Cannot read properties of null" })
  | .ok (some result) =>
    if versionRejected result then
      ((dispose st sessionId).1,
       { success := false, sessionId := none,
         error := some "Unsupported protocol version (requires v1+)" })
    else
      (updateSession st sessionId (fun s =>
        { s with status := .ready,
                 protocolVersion := result.getField "protocolVersion",
                 capabilities := result.getField "capabilities" }),
       { success := true, sessionId := some sessionId, error := none })

/-- Prepend characters onto the head segment of a split (helper for
`splitNl`). -/
def consHead (x : List Char) : List (List Char) → List (List Char)
  | [] => [x]
  | h :: t => (x ++ h) :: t

/-- Split a character stream on newline characters, modelling
String.prototype.split('\n'): the result always has at least one
segment, segments contain no newline, and the separators are dropped. -/
def splitNl : List Char → List (List Char)
  | [] => [[]]
  | c :: rest =>
    if c = '\n' then [] :: splitNl rest
    else consHead [c] (splitNl rest)

/-- Last segment of a split (helper for `lines.pop() || ''`: the split
result is never empty, and popping an empty last segment also leaves an
empty buffer). -/
def lastSeg : List (List Char) → List Char
  | [] => []
  | [x] => x
  | _ :: t => lastSeg t

/-- One stdout data callback of wireStdio, framing part: append the chunk
to the leftover buffer, split on newlines, emit every complete segment,
and retain the final segment as the new buffer. -/
def framerFeed (buf chunk : List Char) : List (List Char) × List Char :=
  let parts := splitNl (buf ++ chunk)
  (parts.dropLast, lastSeg parts)

/-- Feed a sequence of chunks through the framer, accumulating the
complete lines emitted and the final leftover buffer. -/
def framerRun : List Char → List (List Char) → List (List Char) × List Char
  | buf, [] => ([], buf)
  | buf, c :: cs =>
    let fed := framerFeed buf c
    let rest := framerRun fed.2 cs
    (fed.1 ++ rest.1, rest.2)

/-- String.prototype.trim on a character list. -/
def trimChars (l : List Char) : List Char :=
  ((l.dropWhile isWsChar).reverse.dropWhile isWsChar).reverse

/-- Process one complete line from the framer, mirroring the loop body of
the stdout handler: trim; skip blank lines; drop lines longer than the
64 KiB ceiling with a warning; otherwise hand the line to JSON.parse
(modelled by the `parse` argument; `none` is a parse failure) and on
success classify it with handleMessage — a parsed primitive makes the
field tests of handleMessage throw, and the catch turns both failures
into the session-scoped invalid-JSON error event.  The third component
records the lines handed to JSON.parse. -/
def processLine (parse : List Char → Option Json) (st : AcpState) (sessionId : String)
    (line : List Char) : AcpState × List AcpEvent × List (List Char) :=
  let trimmed := trimChars line
  if trimmed.isEmpty then (st, [], [])
  else if trimmed.length > 65536 then
    (st, [.warnOversized sessionId trimmed.length], [])
  else
    match parse trimmed with
    | some msg =>
      if msg.throwsOnFieldTest then
        (st, [.errorEvt sessionId "Invalid JSON from agent"], [trimmed])
      else
        let r := handleMessage st sessionId msg
        (r.1, r.2, [trimmed])
    | none => (st, [.errorEvt sessionId "Invalid JSON from agent"], [trimmed])

/-- Process the complete lines of one or more chunks in order, threading
the service state and concatenating events and parsed lines. -/
def processLines (parse : List Char → Option Json) (st : AcpState) (sessionId : String) :
    List (List Char) → AcpState × List AcpEvent × List (List Char)
  | [] => (st, [], [])
  | l :: ls =>
    let r1 := processLine parse st sessionId l
    let r2 := processLines parse r1.1 sessionId ls
    (r2.1, r1.2.1 ++ r2.2.1, r1.2.2 ++ r2.2.2)

/-- One full stdout data callback: framing followed by per-line
processing.  Returns the new service state, the new leftover buffer, the
emitted events and the lines handed to JSON.parse. -/
def onStdoutData (parse : List Char → Option Json) (st : AcpState) (sessionId : String)
    (buf chunk : List Char) : AcpState × List Char × List AcpEvent × List (List Char) :=
  let fed := framerFeed buf chunk
  let r := processLines parse st sessionId fed.1
  (r.1, fed.2, r.2.1, r.2.2)

/-- Run the stdout handler over a sequence of chunks. -/
def runStdout (parse : List Char → Option Json) (st : AcpState) (sessionId : String) :
    List Char → List (List Char) → AcpState × List Char × List AcpEvent × List (List Char)
  | buf, [] => (st, buf, [], [])
  | buf, c :: cs =>
    let r1 := onStdoutData parse st sessionId buf c
    let r2 := runStdout parse r1.1 sessionId r1.2.1 cs
    (r2.1, r2.2.1, r1.2.2.1 ++ r2.2.2.1, r1.2.2.2 ++ r2.2.2.2)

/-! Association-list lemmas for the JavaScript Map model. -/

theorem mapGet_cons {α : Type} (e : String × α) (m : List (String × α)) (k : String) :
    mapGet (e :: m) k = if e.1 = k then some e.2 else mapGet m k := by
  by_cases h : e.1 = k
  · have hb : (e.1 == k) = true := by simp [h]
    simp [mapGet, List.find?, hb, h]
  · have hb : (e.1 == k) = false := by simp [h]
    simp [mapGet, List.find?, hb, h]

theorem mapGet_delete_self {α : Type} (m : List (String × α)) (k : String) :
    mapGet (mapDelete m k) k = none := by
  induction m with
  | nil => rfl
  | cons e t ih =>
    by_cases h : e.1 = k
    · have hb : (e.1 == k) = true := by simp [h]
      simp only [mapDelete, List.filter_cons, hb, Bool.not_true]
      simpa [mapDelete] using ih
    · have hb : (e.1 == k) = false := by simp [h]
      simp only [mapDelete, List.filter_cons, hb, Bool.not_false, if_true]
      rw [mapGet_cons, if_neg h]
      simpa [mapDelete] using ih

theorem mapGet_delete_other {α : Type} (m : List (String × α)) (k k' : String) (h : k ≠ k') :
    mapGet (mapDelete m k') k = mapGet m k := by
  induction m with
  | nil => rfl
  | cons e t ih =>
    by_cases he : e.1 = k'
    · have hb : (e.1 == k') = true := by simp [he]
      have hek : ¬ e.1 = k := fun hh => h (hh ▸ he ▸ rfl)
      simp only [mapDelete, List.filter_cons, hb, Bool.not_true]
      rw [mapGet_cons, if_neg hek]
      simpa [mapDelete] using ih
    · have hb : (e.1 == k') = false := by simp [he]
      simp only [mapDelete, List.filter_cons, hb, Bool.not_false, if_true]
      rw [mapGet_cons, mapGet_cons]
      by_cases hek : e.1 = k
      · simp [hek]
      · simp only [if_neg hek]
        simpa [mapDelete] using ih

theorem mapGet_filterKey_of_true {α : Type} (m : List (String × α)) (p : String → Bool)
    (k : String) (h : p k = true) :
    mapGet (m.filter (fun e => p e.1)) k = mapGet m k := by
  induction m with
  | nil => rfl
  | cons e t ih =>
    by_cases hek : e.1 = k
    · have hp : p e.1 = true := hek ▸ h
      simp only [List.filter_cons, hp, if_true]
      rw [mapGet_cons, mapGet_cons, if_pos hek, if_pos hek]
    · rcases hp : p e.1 with _ | _
      · simp only [List.filter_cons, hp]
        rw [if_neg (by simp), mapGet_cons, if_neg hek, ih]
      · simp only [List.filter_cons, hp, if_true]
        rw [mapGet_cons, mapGet_cons, if_neg hek, if_neg hek, ih]

theorem mapGet_filterKey_of_false {α : Type} (m : List (String × α)) (p : String → Bool)
    (k : String) (h : p k = false) :
    mapGet (m.filter (fun e => p e.1)) k = none := by
  induction m with
  | nil => rfl
  | cons e t ih =>
    rcases hp : p e.1 with _ | _
    · simp only [List.filter_cons, hp]
      rw [if_neg (by simp), ih]
    · have hek : ¬ e.1 = k := by
        intro hh
        rw [hh, h] at hp
        exact Bool.noConfusion hp
      simp only [List.filter_cons, hp, if_true]
      rw [mapGet_cons, if_neg hek, ih]

theorem mapGet_updateAt_self {α : Type} (m : List (String × α)) (k : String) (g : α → α) :
    mapGet (m.map (fun e => if e.1 == k then (e.1, g e.2) else e)) k
      = (mapGet m k).map g := by
  induction m with
  | nil => rfl
  | cons e t ih =>
    by_cases hek : e.1 = k
    · have hb : (e.1 == k) = true := by simp [hek]
      simp only [List.map, hb, if_true]
      rw [mapGet_cons, if_pos hek, mapGet_cons, if_pos hek]
      rfl
    · have hb : (e.1 == k) = false := by simp [hek]
      simp only [List.map, hb]
      rw [if_neg (by simp), mapGet_cons, if_neg hek, mapGet_cons, if_neg hek, ih]

theorem mapGet_updateAt_other {α : Type} (m : List (String × α)) (k k' : String) (g : α → α)
    (h : k ≠ k') :
    mapGet (m.map (fun e => if e.1 == k' then (e.1, g e.2) else e)) k = mapGet m k := by
  induction m with
  | nil => rfl
  | cons e t ih =>
    by_cases he : e.1 = k'
    · have hb : (e.1 == k') = true := by simp [he]
      have hek : ¬ e.1 = k := fun hh => h (hh ▸ he ▸ rfl)
      simp only [List.map, hb, if_true]
      rw [mapGet_cons, mapGet_cons]
      simp only [if_neg hek]
      exact ih
    · have hb : (e.1 == k') = false := by simp [he]
      simp only [List.map, hb]
      rw [if_neg (by simp), mapGet_cons, mapGet_cons]
      by_cases hek : e.1 = k
      · simp [hek]
      · simp only [if_neg hek]
        exact ih

theorem promiseOf_settle_self (ps : List (String × PromiseState)) (k : String)
    (outcome : PromiseState) :
    mapGet (settlePromise ps k outcome) k
      = (mapGet ps k).map (fun p => settleOnce p outcome) := by
  simpa [settlePromise] using mapGet_updateAt_self ps k (fun p => settleOnce p outcome)

theorem promiseOf_settle_other (ps : List (String × PromiseState)) (k k' : String)
    (outcome : PromiseState) (h : k ≠ k') :
    mapGet (settlePromise ps k' outcome) k = mapGet ps k := by
  simpa [settlePromise] using mapGet_updateAt_other ps k k' (fun p => settleOnce p outcome) h

/-- Settling twice with a rejection is the same as settling once
(first settle wins). -/
theorem settleOnce_idem (p : PromiseState) (r : RejectReason) :
    settleOnce (settleOnce p (.rejected r)) (.rejected r) = settleOnce p (.rejected r) := by
  cases p <;> rfl

/-- The promise found under a key after the dispose rejection fold: keys
among the rejected entries are settled with the session-disposed
rejection, other keys are untouched. -/
theorem mapGet_foldSettle (l : List (String × PendingEntry)) (ps : List (String × PromiseState))
    (k : String) :
    mapGet (l.foldl (fun acc e => settlePromise acc e.1 (.rejected .sessionDisposed)) ps) k
      = if l.any (fun e => e.1 == k) then
          (mapGet ps k).map (fun p => settleOnce p (.rejected .sessionDisposed))
        else mapGet ps k := by
  induction l generalizing ps with
  | nil => simp
  | cons e t ih =>
    simp only [List.foldl_cons, List.any_cons]
    by_cases he : e.1 = k
    · subst he
      rw [ih]
      by_cases ht : (t.any fun x => x.1 == e.1) = true
      · rw [if_pos ht, if_pos (by simp [ht])]
        rw [promiseOf_settle_self, Option.map_map]
        apply congrArg (fun f => Option.map f (mapGet ps e.1))
        funext p
        exact settleOnce_idem p _
      · rw [if_neg ht, if_pos (by simp)]
        rw [promiseOf_settle_self]
    · have hb : (e.1 == k) = false := by simp [he]
      have hk : k ≠ e.1 := fun hh => he hh.symm
      rw [ih]
      by_cases ht : (t.any fun x => x.1 == k) = true
      · rw [if_pos ht, if_pos (by simp [hb, ht])]
        rw [promiseOf_settle_other ps k e.1 _ hk]
      · rw [if_neg ht, if_neg (by simpa [hb] using ht)]
        exact promiseOf_settle_other ps k e.1 _ hk

/-- A key registered in the map and satisfying the key predicate appears
among the filtered entries. -/
theorem mem_filterKey_of_mapGet {α : Type} (m : List (String × α)) (p : String → Bool)
    (k : String) (v : α) (hget : mapGet m k = some v) (hp : p k = true) :
    (k, v) ∈ m.filter (fun e => p e.1) := by
  induction m with
  | nil => exact absurd hget (by simp [mapGet, List.find?])
  | cons e t ih =>
    rw [mapGet_cons] at hget
    by_cases hek : e.1 = k
    · rw [if_pos hek] at hget
      injection hget with hv
      obtain ⟨e1, e2⟩ := e
      simp only at hek hv
      subst hek
      subst hv
      rw [List.filter_cons, if_pos (by simpa using hp)]
      exact List.mem_cons_self _ _
    · rw [if_neg hek] at hget
      rw [List.filter_cons]
      rcases hpe : p e.1 with _ | _
      · rw [if_neg (by simp)]
        exact ih hget
      · rw [if_pos rfl]
        exact List.mem_cons_of_mem e (ih hget)

/-- A dispose of an unregistered session id returns immediately with no
state change and no cleanup action. -/
theorem dispose_of_absent (st : AcpState) (sid : String)
    (h : mapGet st.sessions sid = none) : dispose st sid = (st, []) := by
  simp only [dispose, h]

/-- After dispose, the session id is no longer in the registry. -/
theorem sessions_after_dispose (st : AcpState) (sid : String) :
    mapGet (disposeSt st sid).sessions sid = none := by
  rcases h : mapGet st.sessions sid with _ | s
  · rw [disposeSt, dispose_of_absent st sid h]
    exact h
  · simp only [disposeSt, dispose, h]
    exact mapGet_delete_self _ _

/-- Claim C6: dispose is idempotent and performs its cleanup exactly
once.  The first dispose of a registered session removes it from the
registry, records a kill action when the process is still alive, closes
and removes the log writer when present, and removes and rejects (with
the session-disposed error) every pending call whose key starts with the
session id.  A second dispose — and a dispose after the subprocess
already exited on its own, where the exit handler has already performed
the cleanup — is a no-op: it returns the state unchanged and performs no
cleanup action, so no resource is released twice. -/
theorem C6_dispose_idempotent (st : AcpState) (sid : String) :
    dispose (disposeSt st sid) sid = (disposeSt st sid, [])
    ∧ (∀ code, dispose (onExit st sid code).1 sid = ((onExit st sid code).1, []))
    ∧ (∀ s, mapGet st.sessions sid = some s →
        mapGet (disposeSt st sid).sessions sid = none
        ∧ (s.killed = false → DisposeAction.killProc ∈ (dispose st sid).2)
        ∧ (∀ w, mapGet st.logWriters sid = some w →
            DisposeAction.closeWriter ∈ (dispose st sid).2
            ∧ mapGet (disposeSt st sid).logWriters sid = none)
        ∧ (∀ k e, mapGet st.pendingRequests k = some e → strStartsWith k sid = true →
            mapGet (disposeSt st sid).pendingRequests k = none
            ∧ DisposeAction.rejectPending k ∈ (dispose st sid).2
            ∧ (promiseOf st k = some PromiseState.pending →
               promiseOf (disposeSt st sid) k
                 = some (PromiseState.rejected RejectReason.sessionDisposed)))) := by
  refine ⟨?_, ?_, ?_⟩
  · exact dispose_of_absent _ _ (sessions_after_dispose st sid)
  · intro code
    simp only [onExit]
    exact dispose_of_absent _ _ (sessions_after_dispose _ _)
  · intro s hs
    refine ⟨sessions_after_dispose st sid, ?_, ?_, ?_⟩
    · intro hk
      simp [dispose, hs, hk]
    · intro w hw
      constructor
      · simp [dispose, hs, hw]
      · simp only [disposeSt, dispose, hs]
        exact mapGet_delete_self _ _
    · intro k e hk hsw
      have hmem : (k, e) ∈ st.pendingRequests.filter (fun x => strStartsWith x.1 sid) :=
        mem_filterKey_of_mapGet st.pendingRequests (fun x => strStartsWith x sid) k e hk hsw
      refine ⟨?_, ?_, ?_⟩
      · simp only [disposeSt, dispose, hs]
        exact mapGet_filterKey_of_false st.pendingRequests
          (fun x => !(strStartsWith x sid)) k (by simp [hsw])
      · have hmap : DisposeAction.rejectPending k ∈
            (st.pendingRequests.filter (fun x => strStartsWith x.1 sid)).map
              (fun x => DisposeAction.rejectPending x.1) :=
          List.mem_map_of_mem (fun x => DisposeAction.rejectPending x.1) hmem
        simp only [dispose, hs, List.mem_append]
        tauto
      · intro hpending
        simp only [disposeSt, dispose, hs, promiseOf] at hpending ⊢
        rw [mapGet_foldSettle]
        rw [if_pos ?side]
        case side =>
          rw [List.any_eq_true]
          exact ⟨(k, e), hmem, by simp⟩
        rw [hpending]
        rfl

/-- Claim C3: first event wins.  If the timeout timer of the call
registered under key `k` fires while its promise is still pending, the
call is removed from the pending map and rejected with the timeout
error; a Response for the same id arriving afterwards finds no pending
entry and is a complete no-op — handleMessage (a total function, so it
cannot throw) returns the state unchanged and emits nothing, so the call
is never re-resolved or re-rejected. -/
theorem C3_timeout_first_wins (st : AcpState) (k sessionId method : String)
    (tms : Nat) (msg : Json)
    (hpend : promiseOf st k = some PromiseState.pending)
    (hkey : sessionId ++ ":" ++ respIdString (msg.getField "id") = k)
    (hresp : isResponseShape msg = true) :
    mapGet (timerFire st k method tms).pendingRequests k = none
    ∧ promiseOf (timerFire st k method tms) k
        = some (PromiseState.rejected (RejectReason.timeout method tms))
    ∧ handleMessage (timerFire st k method tms) sessionId msg
        = (timerFire st k method tms, []) := by
  have hdel : mapGet (timerFire st k method tms).pendingRequests k = none := by
    simp only [timerFire]
    exact mapGet_delete_self _ _
  refine ⟨hdel, ?_, ?_⟩
  · simp only [timerFire, promiseOf] at hpend ⊢
    rw [promiseOf_settle_self, hpend]
    rfl
  · simp only [isResponseShape] at hresp
    simp only [handleMessage, hresp, if_pos, hkey, hdel]

/-- A sample session record for concrete witness states. -/
def sampleSession (i : String) (st : Status) : Session :=
  ⟨i, "p", "w", "/tmp", false, true, st, none, none⟩

/-- Concrete state for the C6 witness: one registered session with a live
process, an open log writer and one pending call. -/
def stC6 : AcpState :=
  ⟨[("x", sampleSession "x" Status.ready)], [("x:1", ⟨"prompt", 100⟩)], 1,
   [("x:1", PromiseState.pending)], [("x", true)], []⟩

/-- Witness for C6 at a concrete state. -/
theorem C6_witness :
    mapGet (disposeSt stC6 "x").sessions "x" = none
    ∧ DisposeAction.killProc ∈ (dispose stC6 "x").2
    ∧ DisposeAction.closeWriter ∈ (dispose stC6 "x").2
    ∧ mapGet (disposeSt stC6 "x").logWriters "x" = none
    ∧ mapGet (disposeSt stC6 "x").pendingRequests "x:1" = none
    ∧ DisposeAction.rejectPending "x:1" ∈ (dispose stC6 "x").2
    ∧ promiseOf (disposeSt stC6 "x") "x:1"
        = some (PromiseState.rejected RejectReason.sessionDisposed)
    ∧ dispose (disposeSt stC6 "x") "x" = (disposeSt stC6 "x", []) := by
  obtain ⟨h1, h2, h3⟩ := C6_dispose_idempotent stC6 "x"
  obtain ⟨ha, hb, hc, hd⟩ := h3 (sampleSession "x" Status.ready) rfl
  obtain ⟨hc1, hc2⟩ := hc true rfl
  obtain ⟨hd1, hd2, hd3⟩ := hd "x:1" ⟨"prompt", 100⟩ rfl rfl
  exact ⟨ha, hb rfl, hc1, hc2, hd1, hd2, hd3 rfl, h1⟩

/-- Concrete state for the C3 witness: one registered pending call under
key "s:1". -/
def stC3 : AcpState :=
  ⟨[("s", sampleSession "s" Status.ready)], [("s:1", ⟨"prompt", 100⟩)], 1,
   [("s:1", PromiseState.pending)], [], []⟩

/-- The late matching Response for the C3 witness. -/
def msgC3 : Json :=
  Json.obj [("jsonrpc", Json.str "2.0"), ("id", Json.num 1), ("result", Json.obj [])]

/-- Witness for C3 at a concrete state and response. -/
theorem C3_witness :
    mapGet (timerFire stC3 "s:1" "prompt" 100).pendingRequests "s:1" = none
    ∧ promiseOf (timerFire stC3 "s:1" "prompt" 100) "s:1"
        = some (PromiseState.rejected (RejectReason.timeout "prompt" 100))
    ∧ handleMessage (timerFire stC3 "s:1" "prompt" 100) "s" msgC3
        = (timerFire stC3 "s:1" "prompt" 100, []) :=
  C3_timeout_first_wins stC3 "s:1" "s" "prompt" 100 msgC3 rfl rfl rfl

/-- The two colliding session ids of the C5 counterexample:
mkSessionId makes "p-w-1" a proper string prefix of "p-w-12". -/
def s1C5 : String := mkSessionId "p" "w" 1

/-- Second session id for the C5 counterexample. -/
def s2C5 : String := mkSessionId "p" "w" 12

/-- Concrete state for the C5 counterexample: two distinct registered
sessions, with one call pending under the second session. -/
def stC5 : AcpState :=
  ⟨[(s1C5, sampleSession s1C5 Status.ready), (s2C5, sampleSession s2C5 Status.ready)],
   [(reqKey s2C5 3, ⟨"prompt", 100⟩)], 3,
   [(reqKey s2C5 3, PromiseState.pending)], [], []⟩

/-- Claim C5, counterexample: disposing session "p-w-1" rejects and
removes the pending call of the distinct session "p-w-12", because the
pending key "p-w-12:3" starts with the string "p-w-1".  This refutes the
claim that disposing one session never affects another session's pending
calls. -/
theorem C5_counterexample :
    s1C5 ≠ s2C5
    ∧ mapGet stC5.sessions s1C5 = some (sampleSession s1C5 Status.ready)
    ∧ mapGet stC5.sessions s2C5 = some (sampleSession s2C5 Status.ready)
    ∧ mapGet stC5.pendingRequests (reqKey s2C5 3) = some ⟨"prompt", 100⟩
    ∧ promiseOf stC5 (reqKey s2C5 3) = some PromiseState.pending
    ∧ mapGet (disposeSt stC5 s1C5).pendingRequests (reqKey s2C5 3) = none
    ∧ promiseOf (disposeSt stC5 s1C5) (reqKey s2C5 3)
        = some (PromiseState.rejected RejectReason.sessionDisposed) :=
  ⟨by decide, rfl, rfl, rfl, rfl, rfl, rfl⟩

/-- Claim C5 as amended: dispose(s1) leaves a pending call registered and
unsettled exactly when the call's key does not start with s1's session
id; since keys are sessionId:requestId and session ids are
providerId-workspaceId-timestamp, this protects another session's calls
only when s1's id is not a string prefix of the call's key. -/
theorem C5_dispose_frame (st : AcpState) (s1 k : String) (e : PendingEntry)
    (hk : mapGet st.pendingRequests k = some e)
    (hsw : strStartsWith k s1 = false) :
    mapGet (disposeSt st s1).pendingRequests k = some e
    ∧ promiseOf (disposeSt st s1) k = promiseOf st k := by
  rcases hs : mapGet st.sessions s1 with _ | s
  · rw [disposeSt, dispose_of_absent st s1 hs]
    exact ⟨hk, rfl⟩
  · constructor
    · simp only [disposeSt, dispose, hs]
      rw [mapGet_filterKey_of_true st.pendingRequests
        (fun x => !(strStartsWith x s1)) k (by simp [hsw])]
      exact hk
    · simp only [disposeSt, dispose, hs, promiseOf]
      rw [mapGet_foldSettle, if_neg ?side]
      case side =>
        rw [List.any_eq_true]
        rintro ⟨x, hx, hxk⟩
        have hpx := List.of_mem_filter hx
        rw [beq_iff_eq] at hxk
        rw [hxk] at hpx
        rw [hpx] at hsw
        exact Bool.noConfusion hsw

/-- Concrete state for the C5 witness: a pending call under session "b"
survives disposal of session "a". -/
def stC5w : AcpState :=
  ⟨[("a", sampleSession "a" Status.ready), ("b", sampleSession "b" Status.ready)],
   [("b:1", ⟨"prompt", 100⟩)], 1, [("b:1", PromiseState.pending)], [], []⟩

/-- Witness for the amended C5 at a concrete state. -/
theorem C5_witness :
    mapGet (disposeSt stC5w "a").pendingRequests "b:1" = some ⟨"prompt", 100⟩
    ∧ promiseOf (disposeSt stC5w "a") "b:1" = promiseOf stC5w "b:1" :=
  C5_dispose_frame stC5w "a" "b:1" ⟨"prompt", 100⟩ rfl rfl

/-- The failing input of C1: a parsed message carrying `method` and
`error` but no `id` (a notification reporting an error object). -/
def msgC1 : Json :=
  Json.obj [("jsonrpc", Json.str "2.0"), ("method", Json.str "progress"),
    ("error", Json.obj [("code", Json.num 1), ("message", Json.str "boom")])]

/-- Concrete empty-pending state for C1. -/
def stC1 : AcpState := ⟨[("s", sampleSession "s" Status.ready)], [], 0, [], [], []⟩

/-- Concrete state for C1 with a pending entry under the key the code
builds for an absent id ("s:undefined"). -/
def stC1p : AcpState :=
  ⟨[("s", sampleSession "s" Status.ready)], [("s:undefined", ⟨"prompt", 100⟩)], 1,
   [("s:undefined", PromiseState.pending)], [], []⟩

/-- Claim C1 is violated by the code (operator precedence bug): the
Response test `'id' in msg && 'result' in msg || 'error' in msg` parses
as `('id' in msg && 'result' in msg) || ('error' in msg)`, so `msgC1` —
which has a `method` field and no `id` field and should therefore be
emitted as a Notification per the claim — takes the Response path
instead: with no matching pending call it is dropped with no event, and
with a pending call registered under the "undefined"-id key it even
consumes and rejects that call. -/
theorem C1_classifier_precedence_bug :
    msgC1.hasField "method" = true
    ∧ msgC1.hasField "id" = false
    ∧ isResponseShape msgC1 = true
    ∧ handleMessage stC1 "s" msgC1 = (stC1, [])
    ∧ (handleMessage stC1p "s" msgC1).1.pendingRequests = []
    ∧ promiseOf (handleMessage stC1p "s" msgC1).1 "s:undefined"
        = some (PromiseState.rejected (RejectReason.responseError (some (Json.str "boom")))) :=
  ⟨rfl, rfl, rfl, rfl, rfl, rfl⟩

/-- The counterexample message of C7: a server-initiated request shape,
carrying both `method` and `id` (and neither `result` nor `error`). -/
def msgC7 : Json :=
  Json.obj [("jsonrpc", Json.str "2.0"), ("id", Json.num 7), ("method", Json.str "ping")]

/-- Concrete state for C7 with a pending call under the matching key, to
show the request shape is ignored entirely. -/
def stC7 : AcpState :=
  ⟨[("s", sampleSession "s" Status.ready)], [("s:7", ⟨"prompt", 100⟩)], 7,
   [("s:7", PromiseState.pending)], [], []⟩

/-- Claim C7, counterexample: a parsed message with both `method` and
`id` matches neither branch of handleMessage and is silently dropped —
the handler returns the state unchanged and emits no event at all, so it
is not surfaced to observers as any unhandled-message event (the service
has no such emission). -/
theorem C7_counterexample :
    msgC7.hasField "method" = true
    ∧ msgC7.hasField "id" = true
    ∧ isResponseShape msgC7 = false
    ∧ handleMessage stC7 "s" msgC7 = (stC7, []) :=
  ⟨rfl, rfl, rfl, rfl⟩

/-- Claim C7 as amended: a parsed object message matching neither the
Response test nor the Notification test is silently ignored by
handleMessage — no event is emitted and the state is unchanged.
(Non-object values are not silently dropped: the `in` tests throw and
the catch in the stdout handler emits the invalid-JSON error event.) -/
theorem C7_unmatched_shape_ignored (st : AcpState) (sessionId : String) (msg : Json)
    (h1 : isResponseShape msg = false)
    (h2 : (msg.hasField "method" && !(msg.hasField "id")) = false) :
    handleMessage st sessionId msg = (st, []) := by
  simp only [isResponseShape] at h1
  simp only [handleMessage, h1, h2]
  simp

/-- Witness for the amended C7 at a concrete input. -/
theorem C7_witness : handleMessage stC7 "s" msgC7 = (stC7, []) :=
  C7_unmatched_shape_ignored stC7 "s" msgC7 rfl rfl

/-- Claim C10: cancel requires only that the session exist — the status
is never inspected.  For a registered session with a stdin pipe, cancel
writes the framed cancel notification line to that session's stdin and
succeeds once the write is flushed, registers no pending call (the
pendingRequests map is unchanged for either write outcome), fails with
the caught write error when the stdin write fails, and fails with
'Session not found' exactly when the id is absent from the registry. -/
theorem C10_cancel_existence_only (st : AcpState) (sessionId : String) (writeOk : Bool) :
    (∀ s, mapGet st.sessions sessionId = some s → s.stdinOpen = true →
      cancel st sessionId true
        = ({ st with stdinWrites := st.stdinWrites
              ++ [(sessionId, Json.stringify (notifJson "cancel" (Json.obj [])) ++ "\n")] },
           { success := true, error := none })
      ∧ cancel st sessionId false
        = (st, { success := false, error := some (reasonMessage RejectReason.writeFailed) })
      ∧ (cancel st sessionId writeOk).1.pendingRequests = st.pendingRequests)
    ∧ (mapGet st.sessions sessionId = none →
      cancel st sessionId writeOk
        = (st, { success := false, error := some "Session not found" })) := by
  constructor
  · intro s hs hstdin
    refine ⟨?_, ?_, ?_⟩
    · simp [cancel, rpcNotify, hs, hstdin]
    · simp [cancel, rpcNotify, hs, hstdin]
    · cases writeOk <;> simp [cancel, rpcNotify, hs, hstdin]
  · intro hs
    simp [cancel, hs]

/-- Concrete state for the C10 witness: the registered session is in the
'exited' status, not 'ready', and cancel still succeeds. -/
def stC10 : AcpState :=
  ⟨[("x", sampleSession "x" Status.exited)], [("x:1", ⟨"prompt", 100⟩)], 1,
   [("x:1", PromiseState.pending)], [], []⟩

/-- Witness for C10 at a concrete state whose session is not ready. -/
theorem C10_witness :
    cancel stC10 "x" true
      = ({ stC10 with stdinWrites :=
            [("x", Json.stringify (notifJson "cancel" (Json.obj [])) ++ "\n")] },
         { success := true, error := none })
    ∧ (cancel stC10 "x" true).1.pendingRequests = stC10.pendingRequests
    ∧ cancel stC10 "nope" true
        = (stC10, { success := false, error := some "Session not found" }) := by
  obtain ⟨hsome, _⟩ := C10_cancel_existence_only stC10 "x" true
  obtain ⟨h1, _, h3⟩ := hsome (sampleSession "x" Status.exited) rfl rfl
  obtain ⟨_, hnone⟩ := C10_cancel_existence_only stC10 "nope" true
  exact ⟨h1, h3, hnone rfl⟩

/-- Concrete state for C2: one session still in the initializing
status. -/
def stC2 : AcpState :=
  ⟨[("g-w-5", ⟨"g-w-5", "g", "w", "/tmp", false, true, Status.initializing, none, none⟩)],
   [], 1, [], [("g-w-5", true)], []⟩

/-- The C2 counterexample initialize result: no protocolVersion field at
all. -/
def resC2 : Json := Json.obj [("capabilities", Json.obj [])]

/-- Claim C2, counterexample: an initialize response whose result has no
protocolVersion field is accepted — the session is not torn down, the
status becomes ready and newSession reports success, contradicting the
claim that a missing protocolVersion fails the handshake. -/
theorem C2_counterexample :
    resC2.getField "protocolVersion" = none
    ∧ (newSessionFinish stC2 "g-w-5" (Except.ok (some resC2))).2.success = true
    ∧ sessionStatus (newSessionFinish stC2 "g-w-5" (Except.ok (some resC2))).1 "g-w-5"
        = some Status.ready :=
  ⟨rfl, rfl, rfl⟩

/-- Reduction of newSessionFinish on a resolved non-null result: the
protocol version guard decides between teardown and ready. -/
theorem newSessionFinish_ok_ne_null (st : AcpState) (sessionId : String) (result : Json)
    (hnn : result ≠ Json.null) :
    newSessionFinish st sessionId (Except.ok (some result))
      = if versionRejected result then
          (disposeSt st sessionId,
           { success := false, sessionId := none,
             error := some "Unsupported protocol version (requires v1+)" })
        else
          (updateSession st sessionId (fun s =>
            { s with status := Status.ready,
                     protocolVersion := result.getField "protocolVersion",
                     capabilities := result.getField "capabilities" }),
           { success := true, sessionId := some sessionId, error := none }) := by
  cases result with
  | null => exact absurd rfl hnn
  | bool b => rfl
  | num n => rfl
  | str s => rfl
  | arr l => rfl
  | obj l => rfl

/-- Claim C2 as amended: after a resolved initialize, the session is torn
down (disposed, with the unsupported-version error) exactly when the
protocolVersion field is present, truthy, and parseInt yields an integer
below 1; otherwise — including when protocolVersion is missing or not
convertible to an integer — the session becomes ready and newSession
reports success.  A rejected initialize (timeout, transport or write
error) and a null/undefined result (whose field access throws) always
dispose the session and return the initialize error. -/
theorem C2_handshake_guard (st : AcpState) (sessionId : String) (s : Session) (result : Json)
    (hs : mapGet st.sessions sessionId = some s)
    (hnn : result ≠ Json.null) :
    (versionRejected result = true →
      newSessionFinish st sessionId (Except.ok (some result))
        = (disposeSt st sessionId,
           { success := false, sessionId := none,
             error := some "Unsupported protocol version (requires v1+)" })
      ∧ mapGet (newSessionFinish st sessionId (Except.ok (some result))).1.sessions sessionId
          = none)
    ∧ (versionRejected result = false →
      (newSessionFinish st sessionId (Except.ok (some result))).2
        = { success := true, sessionId := some sessionId, error := none }
      ∧ sessionStatus (newSessionFinish st sessionId (Except.ok (some result))).1 sessionId
          = some Status.ready)
    ∧ (∀ e, newSessionFinish st sessionId (Except.error e)
        = (disposeSt st sessionId,
           { success := false, sessionId := none,
             error := some ("Initialize timeout or error: " ++ reasonMessage e) }))
    ∧ (newSessionFinish st sessionId (Except.ok none)).2.success = false
    ∧ (newSessionFinish st sessionId (Except.ok (some Json.null))).2.success = false := by
  have hred := newSessionFinish_ok_ne_null st sessionId result hnn
  refine ⟨?_, ?_, fun e => rfl, rfl, rfl⟩
  · intro hv
    rw [hred, if_pos hv]
    exact ⟨rfl, sessions_after_dispose st sessionId⟩
  · intro hv
    rw [hred, if_neg (by simp [hv])]
    refine ⟨rfl, ?_⟩
    simp only [sessionStatus, updateSession]
    rw [mapGet_updateAt_self st.sessions sessionId (fun x =>
      { x with status := Status.ready,
               protocolVersion := result.getField "protocolVersion",
               capabilities := result.getField "capabilities" }), hs]
    rfl

/-- The C2 witness result: protocolVersion "1" with capabilities. -/
def resC2w : Json :=
  Json.obj [("protocolVersion", Json.str "1"), ("capabilities", Json.obj [])]

/-- The C2 witness result for the rejection branch: protocolVersion
"0". -/
def resC2v0 : Json := Json.obj [("protocolVersion", Json.str "0")]

/-- Witness for the amended C2: version "1" is accepted and the session
becomes ready; version "0" tears the session down with the
unsupported-version error. -/
theorem C2_witness :
    ((newSessionFinish stC2 "g-w-5" (Except.ok (some resC2w))).2
        = { success := true, sessionId := some "g-w-5", error := none }
      ∧ sessionStatus (newSessionFinish stC2 "g-w-5" (Except.ok (some resC2w))).1 "g-w-5"
          = some Status.ready)
    ∧ (newSessionFinish stC2 "g-w-5" (Except.ok (some resC2v0))
        = (disposeSt stC2 "g-w-5",
           { success := false, sessionId := none,
             error := some "Unsupported protocol version (requires v1+)" })) := by
  constructor
  · exact (C2_handshake_guard stC2 "g-w-5"
      ⟨"g-w-5", "g", "w", "/tmp", false, true, Status.initializing, none, none⟩ resC2w rfl
      (fun h => Json.noConfusion h)).2.1 rfl
  · exact ((C2_handshake_guard stC2 "g-w-5"
      ⟨"g-w-5", "g", "w", "/tmp", false, true, Status.initializing, none, none⟩ resC2v0 rfl
      (fun h => Json.noConfusion h)).1 rfl).1

/-! Framer lemmas: splitting on newlines commutes with chunk
concatenation, and no byte is lost or duplicated. -/

theorem consHead_ne_nil (x : List Char) (s : List (List Char)) : consHead x s ≠ [] := by
  cases s <;> simp [consHead]

theorem splitNl_ne_nil (l : List Char) : splitNl l ≠ [] := by
  induction l with
  | nil => simp [splitNl]
  | cons c rest ih =>
    by_cases h : c = '\n'
    · simp [splitNl, h]
    · simp only [splitNl, if_neg h]
      exact consHead_ne_nil _ _

theorem consHead_nil_of_ne_nil (s : List (List Char)) (h : s ≠ []) : consHead [] s = s := by
  cases s with
  | nil => exact absurd rfl h
  | cons a t => simp [consHead]

theorem consHead_consHead (x y : List Char) (s : List (List Char)) :
    consHead x (consHead y s) = consHead (x ++ y) s := by
  cases s <;> simp [consHead, List.append_assoc]

theorem consHead_append (x : List Char) (s t : List (List Char)) (h : s ≠ []) :
    consHead x (s ++ t) = consHead x s ++ t := by
  cases s with
  | nil => exact absurd rfl h
  | cons a s' => simp [consHead]

theorem lastSeg_cons (x : List Char) (t : List (List Char)) (h : t ≠ []) :
    lastSeg (x :: t) = lastSeg t := by
  cases t with
  | nil => exact absurd rfl h
  | cons b t' => rfl

theorem lastSeg_append (s t : List (List Char)) (h : t ≠ []) :
    lastSeg (s ++ t) = lastSeg t := by
  induction s with
  | nil => rfl
  | cons a s' ih =>
    rw [List.cons_append, lastSeg_cons]
    · exact ih
    · intro hc
      rcases List.append_eq_nil.mp hc with ⟨_, h2⟩
      exact h h2

theorem dropLast_cons_of_ne_nil (x : List Char) (t : List (List Char)) (h : t ≠ []) :
    (x :: t).dropLast = x :: t.dropLast := by
  cases t with
  | nil => exact absurd rfl h
  | cons b t' => rfl

theorem splitNl_cons_nl (rest : List Char) : splitNl ('\n' :: rest) = [] :: splitNl rest := by
  simp [splitNl]

theorem splitNl_cons_other (c : Char) (rest : List Char) (h : ¬ c = '\n') :
    splitNl (c :: rest) = consHead [c] (splitNl rest) := by
  simp [splitNl, h]

/-- Splitting a concatenation: the last segment of the first part fuses
with the head segment of the second part. -/
theorem splitNl_append (a b : List Char) :
    splitNl (a ++ b)
      = (splitNl a).dropLast ++ consHead (lastSeg (splitNl a)) (splitNl b) := by
  induction a with
  | nil =>
    rw [List.nil_append]
    show splitNl b = ([[]] : List (List Char)).dropLast ++ consHead (lastSeg [[]]) (splitNl b)
    rw [List.dropLast_single, List.nil_append]
    show splitNl b = consHead [] (splitNl b)
    rw [consHead_nil_of_ne_nil _ (splitNl_ne_nil b)]
  | cons c a' ih =>
    by_cases h : c = '\n'
    · subst h
      rw [List.cons_append, splitNl_cons_nl, splitNl_cons_nl, ih,
        dropLast_cons_of_ne_nil _ _ (splitNl_ne_nil a'),
        lastSeg_cons _ _ (splitNl_ne_nil a'), List.cons_append]
    · rw [List.cons_append, splitNl_cons_other c _ h, splitNl_cons_other c _ h, ih]
      rcases hs : splitNl a' with _ | ⟨hd, t⟩
      · exact absurd hs (splitNl_ne_nil a')
      · rcases t with _ | ⟨hd2, t2⟩
        · rw [List.dropLast_single, List.nil_append, consHead_consHead]
          rw [show consHead [c] [hd] = [[c] ++ hd] from rfl, List.dropLast_single,
            List.nil_append]
          rfl
        · have ht : (hd2 :: t2 : List (List Char)) ≠ [] := by simp
          rw [dropLast_cons_of_ne_nil _ _ ht, lastSeg_cons _ _ ht, List.cons_append]
          rw [show consHead [c]
              (hd :: ((hd2 :: t2).dropLast
                ++ consHead (lastSeg (hd2 :: t2)) (splitNl b)))
            = ([c] ++ hd)
              :: ((hd2 :: t2).dropLast
                ++ consHead (lastSeg (hd2 :: t2)) (splitNl b)) from rfl]
          rw [show consHead [c] (hd :: hd2 :: t2) = ([c] ++ hd) :: hd2 :: t2 from rfl]
          rw [dropLast_cons_of_ne_nil _ _ ht, lastSeg_cons _ _ ht]
          exact (List.cons_append _ _ _).symm

/-- A chunk without newlines splits into itself alone. -/
theorem splitNl_of_no_nl (l : List Char) (h : '\n' ∉ l) : splitNl l = [l] := by
  induction l with
  | nil => rfl
  | cons c rest ih =>
    have hc : ¬ c = '\n' := fun hh => h (hh ▸ List.mem_cons_self c rest)
    have hr : '\n' ∉ rest := fun hh => h (List.mem_cons_of_mem c hh)
    rw [splitNl_cons_other c _ hc, ih hr]
    show ([c] ++ rest) :: ([] : List (List Char)) = [c :: rest]
    rw [List.singleton_append]

/-- Every segment produced by the splitter is newline-free. -/
theorem no_nl_of_mem_splitNl (l : List Char) (x : List Char) (hx : x ∈ splitNl l) :
    '\n' ∉ x := by
  induction l generalizing x with
  | nil =>
    simp only [splitNl, List.mem_singleton] at hx
    simp [hx]
  | cons c rest ih =>
    by_cases h : c = '\n'
    · subst h
      rw [splitNl_cons_nl] at hx
      rcases List.mem_cons.mp hx with hx | hx
      · simp [hx]
      · exact ih x hx
    · rw [splitNl_cons_other c _ h] at hx
      rcases hs : splitNl rest with _ | ⟨hd, t⟩
      · exact absurd hs (splitNl_ne_nil rest)
      · rw [hs] at hx
        simp only [consHead, List.mem_cons] at hx
        rcases hx with hx | hx
        · subst hx
          intro hmem
          rcases List.mem_cons.mp (by simpa using hmem) with hh | hh
          · exact h hh.symm
          · exact ih hd (hs ▸ List.mem_cons_self hd t) hh
        · exact ih x (hs ▸ List.mem_cons_of_mem hd hx)

/-- The last segment of a nonempty list is a member of it. -/
theorem lastSeg_mem (s : List (List Char)) (h : s ≠ []) : lastSeg s ∈ s := by
  induction s with
  | nil => exact absurd rfl h
  | cons a t ih =>
    cases t with
    | nil => simp [lastSeg]
    | cons b t' =>
      rw [lastSeg_cons _ _ (by simp)]
      exact List.mem_cons_of_mem a (ih (by simp))

/-- The retained leftover buffer is newline-free. -/
theorem no_nl_lastSeg_splitNl (l : List Char) : '\n' ∉ lastSeg (splitNl l) :=
  no_nl_of_mem_splitNl l _ (lastSeg_mem _ (splitNl_ne_nil l))

/-- Joining the split segments recovers the input minus its newlines. -/
theorem flatten_splitNl (l : List Char) :
    (splitNl l).flatten = l.filter (fun c => c != '\n') := by
  induction l with
  | nil => rfl
  | cons c rest ih =>
    by_cases h : c = '\n'
    · subst h
      rw [splitNl_cons_nl, List.flatten_cons, List.nil_append, ih, List.filter_cons,
        if_neg (by decide)]
    · rw [splitNl_cons_other c _ h]
      rcases hs : splitNl rest with _ | ⟨hd, t⟩
      · exact absurd hs (splitNl_ne_nil rest)
      · rw [hs] at ih
        rw [List.filter_cons, if_pos (by simp [h])]
        show (([c] ++ hd) :: t).flatten = c :: List.filter (fun c => c != '\n') rest
        rw [List.flatten_cons, ← ih, List.flatten_cons, List.append_assoc,
          List.singleton_append]

/-- Dropping the last segment and appending it back joins to the full
flatten. -/
theorem flatten_dropLast_append_lastSeg (s : List (List Char)) (h : s ≠ []) :
    (s.dropLast).flatten ++ lastSeg s = s.flatten := by
  induction s with
  | nil => exact absurd rfl h
  | cons a t ih =>
    cases t with
    | nil => simp [lastSeg]
    | cons b t' =>
      rw [dropLast_cons_of_ne_nil _ _ (by simp), lastSeg_cons _ _ (by simp)]
      rw [List.flatten_cons, List.flatten_cons, List.append_assoc, ih (by simp)]

/-- Running the framer chunk by chunk computes the split of the whole
accumulated input: the emitted lines are all but the last segment and
the leftover buffer is the last segment.  The buffer invariant
(newline-free, as every retained segment is) makes this hold for an
arbitrary starting buffer. -/
theorem framerRun_eq_splitNl (cs : List (List Char)) (buf : List Char) (h : '\n' ∉ buf) :
    framerRun buf cs
      = ((splitNl (buf ++ cs.flatten)).dropLast, lastSeg (splitNl (buf ++ cs.flatten))) := by
  induction cs generalizing buf with
  | nil =>
    rw [List.flatten_nil, List.append_nil]
    show ([], buf) = ((splitNl buf).dropLast, lastSeg (splitNl buf))
    rw [splitNl_of_no_nl buf h, List.dropLast_single]
    rfl
  | cons c cs' ih =>
    show ((framerFeed buf c).1 ++ (framerRun (framerFeed buf c).2 cs').1,
          (framerRun (framerFeed buf c).2 cs').2)
        = ((splitNl (buf ++ (c :: cs').flatten)).dropLast,
           lastSeg (splitNl (buf ++ (c :: cs').flatten)))
    rw [show (framerFeed buf c).2 = lastSeg (splitNl (buf ++ c)) from rfl]
    rw [ih (lastSeg (splitNl (buf ++ c))) (no_nl_lastSeg_splitNl (buf ++ c))]
    have hkey : splitNl (buf ++ (c :: cs').flatten)
        = (splitNl (buf ++ c)).dropLast
          ++ splitNl (lastSeg (splitNl (buf ++ c)) ++ cs'.flatten) := by
      have h1 : buf ++ (c :: cs').flatten = (buf ++ c) ++ cs'.flatten := by
        rw [List.flatten_cons, List.append_assoc]
      rw [h1, splitNl_append (buf ++ c) cs'.flatten,
        splitNl_append (lastSeg (splitNl (buf ++ c))) cs'.flatten,
        splitNl_of_no_nl _ (no_nl_lastSeg_splitNl (buf ++ c)),
        List.dropLast_single, List.nil_append]
      show (splitNl (buf ++ c)).dropLast
            ++ consHead (lastSeg [lastSeg (splitNl (buf ++ c))])
                (splitNl cs'.flatten)
          = (splitNl (buf ++ c)).dropLast
            ++ consHead (lastSeg (splitNl (buf ++ c))) (splitNl cs'.flatten)
      rfl
    rw [hkey, List.dropLast_append_of_ne_nil _ (splitNl_ne_nil _),
      lastSeg_append _ _ (splitNl_ne_nil _)]
    rfl

/-- Character-level framer invariance: for every way of splitting a
character stream into chunks, the concatenation of the extracted lines
plus the final leftover buffer equals the stream minus the newline
separators, and both the line sequence and the leftover are those of
feeding the whole stream as one chunk.  This is the post-decode half of
the stdout handler; the byte-level statement, with the per-chunk UTF-8
decode in front, is below. -/
theorem framer_chunks_chars_invariance (chunks : List (List Char)) :
    (framerRun [] chunks).1.flatten ++ (framerRun [] chunks).2
      = chunks.flatten.filter (fun c => c != '\n')
    ∧ (framerRun [] chunks).1 = (framerRun [] [chunks.flatten]).1
    ∧ (framerRun [] chunks).2 = (framerRun [] [chunks.flatten]).2 := by
  have h1 := framerRun_eq_splitNl chunks [] (by simp)
  have h2 := framerRun_eq_splitNl [chunks.flatten] [] (by simp)
  rw [List.nil_append] at h1
  have hf : ([chunks.flatten] : List (List Char)).flatten = chunks.flatten := by simp
  rw [hf, List.nil_append] at h2
  refine ⟨?_, ?_, ?_⟩
  · rw [h1]
    exact (flatten_dropLast_append_lastSeg _ (splitNl_ne_nil _)).trans
      (flatten_splitNl _)
  · rw [h1, h2]
  · rw [h1, h2]

/-! The byte level: the stdout data callback receives Buffer chunks and
decodes each one independently with chunk.toString('utf8') before
appending it to the leftover string buffer.  There is no streaming
decoder state across chunks, so a chunk boundary inside a multi-byte
UTF-8 character makes the fragments decode to U+FFFD. -/

/-- The Unicode replacement character U+FFFD, substituted by the decoder
for each maximal ill-formed subsequence. -/
def replChar : Char := Char.ofNat 0xFFFD

/-- UTF-8 continuation byte test (0x80-0xBF). -/
def isContByte (b : Nat) : Bool := 0x80 ≤ b && b ≤ 0xBF

/-- Admissible second byte of a three-byte sequence for lead `b`: the
boundaries of the WHATWG decoder, excluding overlong encodings (lead
0xE0) and surrogates (lead 0xED). -/
def valid3Second (b b2 : Nat) : Bool :=
  if b = 0xE0 then 0xA0 ≤ b2 && b2 ≤ 0xBF
  else if b = 0xED then 0x80 ≤ b2 && b2 ≤ 0x9F
  else isContByte b2

/-- Admissible second byte of a four-byte sequence for lead `b`:
excluding overlong encodings (lead 0xF0) and code points above U+10FFFF
(lead 0xF4). -/
def valid4Second (b b2 : Nat) : Bool :=
  if b = 0xF0 then 0x90 ≤ b2 && b2 ≤ 0xBF
  else if b = 0xF4 then 0x80 ≤ b2 && b2 ≤ 0x8F
  else isContByte b2

/-- One step of the WHATWG UTF-8 decoder with replacement (the decoder
behind Buffer.toString('utf8') in Node/V8), given the first byte `b` and
the bytes after it: the decoded character and the bytes not yet
consumed.  Each maximal ill-formed subsequence — a stray continuation
byte, an invalid lead, or a truncated well-formed prefix (also one cut
off by the end of the chunk) — yields one U+FFFD, and a byte failing a
continuation check is left unconsumed, to be reprocessed as a fresh
lead. -/
def utf8Step (b : Nat) (rest : List Nat) : Char × List Nat :=
  if b ≤ 0x7F then (Char.ofNat b, rest)
  else if b ≤ 0xC1 then (replChar, rest)
  else if b ≤ 0xDF then
    match rest with
    | [] => (replChar, [])
    | b2 :: rest2 =>
      if isContByte b2 then
        (Char.ofNat ((b - 0xC0) * 64 + (b2 - 0x80)), rest2)
      else (replChar, b2 :: rest2)
  else if b ≤ 0xEF then
    match rest with
    | [] => (replChar, [])
    | b2 :: rest2 =>
      if valid3Second b b2 then
        match rest2 with
        | [] => (replChar, [])
        | b3 :: rest3 =>
          if isContByte b3 then
            (Char.ofNat ((b - 0xE0) * 4096 + (b2 - 0x80) * 64 + (b3 - 0x80)), rest3)
          else (replChar, b3 :: rest3)
      else (replChar, b2 :: rest2)
  else if b ≤ 0xF4 then
    match rest with
    | [] => (replChar, [])
    | b2 :: rest2 =>
      if valid4Second b b2 then
        match rest2 with
        | [] => (replChar, [])
        | b3 :: rest3 =>
          if isContByte b3 then
            match rest3 with
            | [] => (replChar, [])
            | b4 :: rest4 =>
              if isContByte b4 then
                (Char.ofNat ((b - 0xF0) * 262144 + (b2 - 0x80) * 4096
                  + (b3 - 0x80) * 64 + (b4 - 0x80)), rest4)
              else (replChar, b4 :: rest4)
          else (replChar, b3 :: rest3)
      else (replChar, b2 :: rest2)
  else (replChar, rest)

/-- The decoder loop, structurally recursive on a fuel argument so that
it is executable; each iteration consumes the lead byte and possibly
more, so fuel equal to the byte count always suffices
(`utf8DecodeGo_fuel` shows the result does not depend on any sufficient
fuel). -/
def utf8DecodeGo : Nat → List Nat → List Char
  | _, [] => []
  | 0, _ :: _ => []
  | fuel + 1, b :: rest =>
    (utf8Step b rest).1 :: utf8DecodeGo fuel (utf8Step b rest).2

/-- Model of Buffer.toString('utf8'): WHATWG UTF-8 decode with U+FFFD
replacement of the whole chunk. -/
def utf8Decode (l : List Nat) : List Char := utf8DecodeGo l.length l

/-- A decoder step never returns more bytes than it was given beyond the
lead it consumed. -/
theorem utf8Step_length (b : Nat) (rest : List Nat) :
    (utf8Step b rest).2.length ≤ rest.length := by
  unfold utf8Step
  repeat' split
  all_goals simp_all
  all_goals omega

/-- Any fuel at least the byte count computes the same decode: the fuel
is an artifact of the encoding of the loop, not part of the model. -/
theorem utf8DecodeGo_fuel (fuel : Nat) : ∀ (fuel2 : Nat) (l : List Nat),
    l.length ≤ fuel → l.length ≤ fuel2 →
    utf8DecodeGo fuel l = utf8DecodeGo fuel2 l := by
  induction fuel with
  | zero =>
    intro fuel2 l h h2
    have hl : l = [] := List.eq_nil_of_length_eq_zero (Nat.le_zero.mp h)
    subst hl
    cases fuel2 <;> rfl
  | succ f ih =>
    intro fuel2 l h h2
    cases l with
    | nil => cases fuel2 <;> rfl
    | cons b rest =>
      cases fuel2 with
      | zero => simp at h2
      | succ f2 =>
        simp only [utf8DecodeGo]
        have hr : rest.length ≤ f := by
          simp only [List.length_cons] at h
          omega
        have hr2 : rest.length ≤ f2 := by
          simp only [List.length_cons] at h2
          omega
        rw [ih f2 (utf8Step b rest).2
          (le_trans (utf8Step_length b rest) hr)
          (le_trans (utf8Step_length b rest) hr2)]

/-- One stdout data callback at the byte level: decode the Buffer chunk
on its own (buffer += chunk.toString('utf8')), then frame. -/
def framerFeedBytes (buf : List Char) (chunk : List Nat) :
    List (List Char) × List Char :=
  framerFeed buf (utf8Decode chunk)

/-- The framer over a sequence of byte chunks: every chunk is decoded
independently — the source keeps no decoder state across data
callbacks — and the decoded text is framed chunk by chunk. -/
def framerRunBytes (buf : List Char) (chunks : List (List Nat)) :
    List (List Char) × List Char :=
  framerRun buf (chunks.map utf8Decode)

/-- The euro sign's three UTF-8 bytes split across two chunks, newline
in the second chunk. -/
def euroSplitChunks : List (List Nat) := [[0xE2, 0x82], [0xAC, 0x0A]]

/-- The same five bytes as one chunk. -/
def euroWholeChunk : List (List Nat) := [[0xE2, 0x82, 0xAC, 0x0A]]

/-- Claim C4, counterexample: the same byte stream fed in two chunks and
in one chunk yields different extracted lines.  Splitting the three
bytes of '€' (E2 82 AC) across a chunk boundary makes each fragment
decode to U+FFFD — the truncated lead pair at the end of the first chunk
and the stray continuation byte opening the second — so the split feed
extracts the line U+FFFD U+FFFD while the single-chunk feed extracts
'€': bytes are lost and the extracted lines depend on where the chunk
boundary falls, refuting the claim's universal quantification over split
patterns. -/
theorem C4_counterexample :
    euroSplitChunks.flatten = euroWholeChunk.flatten
    ∧ (framerRunBytes [] euroSplitChunks).1 = [[replChar, replChar]]
    ∧ (framerRunBytes [] euroWholeChunk).1 = [[Char.ofNat 0x20AC]]
    ∧ (framerRunBytes [] euroSplitChunks).1 ≠ (framerRunBytes [] euroWholeChunk).1 :=
  ⟨rfl, rfl, rfl, by decide⟩

/-- Claim C4 as amended: the conservation and boundary-invisibility hold
at the character level, for every byte chunking whose boundaries fall on
UTF-8 character boundaries — formalized as: concatenating the per-chunk
decodes equals decoding the concatenated bytes.  Then the flatten of the
extracted lines plus the final leftover equals the decoded input minus
the newline separators, and the lines and the leftover are exactly those
of feeding all bytes as one chunk.  (A boundary inside a multi-byte
character breaks the hypothesis, and the counterexample shows the claim
fails there.) -/
theorem C4_decode_boundary_invariance (chunks : List (List Nat))
    (hdec : (chunks.map utf8Decode).flatten = utf8Decode chunks.flatten) :
    (framerRunBytes [] chunks).1.flatten ++ (framerRunBytes [] chunks).2
      = (utf8Decode chunks.flatten).filter (fun c => c != '\n')
    ∧ (framerRunBytes [] chunks).1 = (framerRunBytes [] [chunks.flatten]).1
    ∧ (framerRunBytes [] chunks).2 = (framerRunBytes [] [chunks.flatten]).2 := by
  have h := framer_chunks_chars_invariance (chunks.map utf8Decode)
  rw [hdec] at h
  have hsingle : ([chunks.flatten] : List (List Nat)).map utf8Decode
      = [utf8Decode chunks.flatten] := rfl
  refine ⟨h.1, ?_, ?_⟩
  · rw [framerRunBytes, framerRunBytes, hsingle]
    exact h.2.1
  · rw [framerRunBytes, framerRunBytes, hsingle]
    exact h.2.2

/-- An ASCII byte stream in two chunks for the C4 witness: every ASCII
chunking respects character boundaries. -/
def asciiChunks : List (List Nat) := [[0x68, 0x69, 0x0A], [0x6F, 0x6B]]

/-- Witness for the amended C4 at a concrete boundary-respecting
chunking. -/
theorem C4_witness :
    (framerRunBytes [] asciiChunks).1.flatten ++ (framerRunBytes [] asciiChunks).2
      = (utf8Decode asciiChunks.flatten).filter (fun c => c != '\n')
    ∧ (framerRunBytes [] asciiChunks).1 = (framerRunBytes [] [asciiChunks.flatten]).1
    ∧ (framerRunBytes [] asciiChunks).2 = (framerRunBytes [] [asciiChunks.flatten]).2 :=
  C4_decode_boundary_invariance asciiChunks rfl

/-! Pipeline lemmas: the stdout handler is the framer followed by the
per-line processor, independently of chunk boundaries. -/

theorem processLines_append (parse : List Char → Option Json) (sid : String)
    (a b : List (List Char)) : ∀ st : AcpState,
    processLines parse st sid (a ++ b)
      = ((processLines parse (processLines parse st sid a).1 sid b).1,
         (processLines parse st sid a).2.1
           ++ (processLines parse (processLines parse st sid a).1 sid b).2.1,
         (processLines parse st sid a).2.2
           ++ (processLines parse (processLines parse st sid a).1 sid b).2.2) := by
  induction a with
  | nil => intro st; simp [processLines]
  | cons l t ih =>
    intro st
    rw [List.cons_append]
    simp only [processLines]
    rw [ih]
    simp [List.append_assoc]

theorem runStdout_eq_processLines (parse : List Char → Option Json) (sid : String)
    (cs : List (List Char)) : ∀ (st : AcpState) (buf : List Char),
    runStdout parse st sid buf cs
      = ((processLines parse st sid (framerRun buf cs).1).1,
         (framerRun buf cs).2,
         (processLines parse st sid (framerRun buf cs).1).2.1,
         (processLines parse st sid (framerRun buf cs).1).2.2) := by
  induction cs with
  | nil => intro st buf; simp [runStdout, framerRun, processLines]
  | cons c cs' ih =>
    intro st buf
    simp only [runStdout, onStdoutData, framerRun]
    rw [ih]
    rw [processLines_append]

/-- A line whose trimmed form exceeds the 64 KiB ceiling is dropped with
only the warning log, before any parsing. -/
theorem processLine_oversized (parse : List Char → Option Json) (st : AcpState)
    (sid : String) (line : List Char) (h : (trimChars line).length > 65536) :
    processLine parse st sid line
      = (st, [AcpEvent.warnOversized sid (trimChars line).length], []) := by
  have hne : ¬ (trimChars line).isEmpty = true := by
    rcases hl : trimChars line with _ | ⟨a, t⟩
    · rw [hl] at h
      simp at h
    · simp
  simp only [processLine]
  rw [if_neg hne, if_pos h]

/-- The lines a single processLine hands to JSON.parse: none, or exactly
the trimmed line, and only when it is within the ceiling. -/
theorem processLine_parsed_cases (parse : List Char → Option Json) (st : AcpState)
    (sid : String) (line : List Char) :
    (processLine parse st sid line).2.2 = []
    ∨ ((processLine parse st sid line).2.2 = [trimChars line]
        ∧ ¬ (trimChars line).length > 65536) := by
  simp only [processLine]
  split
  · exact Or.inl rfl
  · split
    · exact Or.inl rfl
    · rename_i hne hlen
      split
      · rename_i msg heq
        split
        · exact Or.inr ⟨rfl, hlen⟩
        · exact Or.inr ⟨rfl, hlen⟩
      · exact Or.inr ⟨rfl, hlen⟩

/-- Every line the pipeline hands to JSON.parse is within the ceiling. -/
theorem processLines_parsed_bound (parse : List Char → Option Json) (sid : String) :
    ∀ (lines : List (List Char)) (st : AcpState),
    ∀ p ∈ (processLines parse st sid lines).2.2, p.length ≤ 65536 := by
  intro lines
  induction lines with
  | nil =>
    intro st p hp
    simp [processLines] at hp
  | cons a t ih =>
    intro st p hp
    simp only [processLines] at hp
    rcases List.mem_append.mp hp with h | h
    · rcases processLine_parsed_cases parse st sid a with hc | ⟨hc, hb⟩
      · rw [hc] at h
        simp at h
      · rw [hc] at h
        rw [List.mem_singleton.mp h]
        exact Nat.le_of_not_lt hb
    · exact ih _ p h

/-- An oversized line anywhere in the line stream produces the warning
event. -/
theorem processLines_oversized_warn (parse : List Char → Option Json) (sid : String) :
    ∀ (lines : List (List Char)) (st : AcpState) (l : List Char), l ∈ lines →
    (trimChars l).length > 65536 →
    AcpEvent.warnOversized sid (trimChars l).length
      ∈ (processLines parse st sid lines).2.1 := by
  intro lines
  induction lines with
  | nil =>
    intro st l hl
    simp at hl
  | cons a t ih =>
    intro st l hl hlen
    rcases List.mem_cons.mp hl with heq | hmem
    · subst heq
      simp only [processLines]
      rw [processLine_oversized parse st sid l hlen]
      simp
    · simp only [processLines]
      have := ih (processLine parse st sid a).1 l hmem hlen
      simp only [List.mem_append]
      exact Or.inr this

/-- Claim C8: over any chunking of the stream, every line the stdout
pipeline hands to JSON.parse has length at most the 64 KiB ceiling
(65536), and a line whose trimmed form exceeds the ceiling — however it
was split across chunks — is dropped with a logged warning and is never
handed to JSON.parse. -/
theorem C8_oversized_lines_dropped (parse : List Char → Option Json) (st : AcpState)
    (sid : String) (chunks : List (List Char)) :
    (∀ p ∈ (runStdout parse st sid [] chunks).2.2.2, p.length ≤ 65536)
    ∧ (∀ l ∈ (framerRun [] chunks).1, (trimChars l).length > 65536 →
        AcpEvent.warnOversized sid (trimChars l).length
          ∈ (runStdout parse st sid [] chunks).2.2.1
        ∧ trimChars l ∉ (runStdout parse st sid [] chunks).2.2.2) := by
  have hr := runStdout_eq_processLines parse sid chunks st []
  constructor
  · intro p hp
    rw [hr] at hp
    exact processLines_parsed_bound parse sid _ st p hp
  · intro l hl hlen
    constructor
    · rw [hr]
      exact processLines_oversized_warn parse sid _ st l hl hlen
    · intro hmem
      rw [hr] at hmem
      have hb := processLines_parsed_bound parse sid _ st _ hmem
      omega

/-- Claim C9: a malformed line is non-fatal.  A nonempty line within the
ceiling whose trimmed form fails JSON parsing produces exactly the
session-scoped invalid-JSON error event and leaves the service state —
sessions, statuses, pending calls, everything — unchanged, and the
remaining lines of the stream are processed exactly as they would have
been without the malformed line. -/
theorem C9_invalid_json_nonfatal (parse : List Char → Option Json) (st : AcpState)
    (sid : String) (line : List Char) (rest : List (List Char))
    (h1 : parse (trimChars line) = none)
    (h2 : (trimChars line).isEmpty = false)
    (h3 : ¬ (trimChars line).length > 65536) :
    processLine parse st sid line
      = (st, [AcpEvent.errorEvt sid "Invalid JSON from agent"], [trimChars line])
    ∧ processLines parse st sid (line :: rest)
      = ((processLines parse st sid rest).1,
         AcpEvent.errorEvt sid "Invalid JSON from agent"
           :: (processLines parse st sid rest).2.1,
         trimChars line :: (processLines parse st sid rest).2.2) := by
  have hp : processLine parse st sid line
      = (st, [AcpEvent.errorEvt sid "Invalid JSON from agent"], [trimChars line]) := by
    simp only [processLine]
    rw [if_neg (by simp [h2]), if_neg h3, h1]
  refine ⟨hp, ?_⟩
  simp only [processLines]
  rw [hp]
  rfl

/-- A trivially failing parse function for the C9 witness. -/
def parseC9 : List Char → Option Json := fun _ => none

/-- Concrete state for the C9 witness. -/
def stC9 : AcpState := ⟨[("s", sampleSession "s" Status.ready)], [], 0, [], [], []⟩

/-- A malformed (unparseable) line for the C9 witness. -/
def lineC9 : List Char := ['n', 'o', 't', 'j']

/-- Witness for C9 at a concrete malformed line. -/
theorem C9_witness :
    processLine parseC9 stC9 "s" lineC9
      = (stC9, [AcpEvent.errorEvt "s" "Invalid JSON from agent"], [trimChars lineC9])
    ∧ processLines parseC9 stC9 "s" (lineC9 :: [['5']])
      = ((processLines parseC9 stC9 "s" [['5']]).1,
         AcpEvent.errorEvt "s" "Invalid JSON from agent"
           :: (processLines parseC9 stC9 "s" [['5']]).2.1,
         trimChars lineC9 :: (processLines parseC9 stC9 "s" [['5']]).2.2) :=
  C9_invalid_json_nonfatal parseC9 stC9 "s" lineC9 [['5']] rfl rfl (by decide)

/-- Trimming a line with no whitespace characters is the identity. -/
theorem trimChars_of_no_ws (l : List Char) (h : ∀ c ∈ l, isWsChar c = false) :
    trimChars l = l := by
  have h1 : ∀ (m : List Char), (∀ c ∈ m, isWsChar c = false) →
      m.dropWhile isWsChar = m := by
    intro m hm
    cases m with
    | nil => rfl
    | cons c t =>
      have hc := hm c (List.mem_cons_self c t)
      rw [List.dropWhile_cons, if_neg (by rw [hc]; exact Bool.false_ne_true)]
  rw [trimChars, h1 l h, h1 l.reverse (fun c hc => h c (List.mem_reverse.mp hc)),
    List.reverse_reverse]

/-- The oversized line of the C8 witness: 65537 copies of 'a', one byte
over the 64 KiB ceiling. -/
def lineC8 : List Char := List.replicate 65537 'a'

/-- One chunk carrying the oversized line and its newline. -/
def chunksC8 : List (List Char) := [lineC8 ++ ['\n']]

/-- A trivially failing parse function for the C8 witness (the claim
holds for every parse function). -/
def parseC8 : List Char → Option Json := fun _ => none

/-- The empty service state for the C8 witness. -/
def stC8 : AcpState := ⟨[], [], 0, [], [], []⟩

theorem no_ws_lineC8 : ∀ c ∈ lineC8, isWsChar c = false := by
  intro c hc
  rw [List.eq_of_mem_replicate hc]
  decide

theorem no_nl_lineC8 : '\n' ∉ lineC8 := by
  intro h
  exact absurd (List.eq_of_mem_replicate h) (by decide)

theorem len_trim_lineC8 : (trimChars lineC8).length = 65537 := by
  rw [trimChars_of_no_ws _ no_ws_lineC8]
  show (List.replicate 65537 'a').length = 65537
  rw [List.length_replicate]

theorem lines_chunksC8 : (framerRun [] chunksC8).1 = [lineC8] := by
  simp only [framerRun_eq_splitNl chunksC8 [] (by simp)]
  have hfl : ([] : List Char) ++ chunksC8.flatten = lineC8 ++ ['\n'] := by
    simp [chunksC8]
  rw [hfl, splitNl_append lineC8 ['\n'], splitNl_of_no_nl lineC8 no_nl_lineC8,
    List.dropLast_single, List.nil_append,
    show lastSeg [lineC8] = lineC8 from rfl,
    show splitNl ['\n'] = [[], []] from rfl,
    show consHead lineC8 [[], ([] : List Char)] = [lineC8 ++ [], []] from rfl,
    List.append_nil]
  rfl

/-- Witness for C8: the one-byte-over line, fed with its newline as a
chunk, produces the warning event and is never handed to JSON.parse. -/
theorem C8_witness :
    AcpEvent.warnOversized "s" 65537
      ∈ (runStdout parseC8 stC8 "s" [] chunksC8).2.2.1
    ∧ trimChars lineC8 ∉ (runStdout parseC8 stC8 "s" [] chunksC8).2.2.2 := by
  have hmem : lineC8 ∈ (framerRun [] chunksC8).1 := by
    rw [lines_chunksC8]
    exact List.mem_singleton_self _
  have hlen : (trimChars lineC8).length > 65536 := by
    rw [len_trim_lineC8]
    decide
  have h := (C8_oversized_lines_dropped parseC8 stC8 "s" chunksC8).2 lineC8 hmem hlen
  refine ⟨?_, h.2⟩
  rw [show (65537 : Nat) = (trimChars lineC8).length from len_trim_lineC8.symm]
  exact h.1

end Acp
